import Mathlib

-- Verification of the Uno solver core against its specification.
-- Shallow embedding: numeric quantities are modelled by exact rationals, external
-- capabilities (direct linear solvers, QP solvers, filter containers) by oracle
-- functions, and the control flow of the C++ sources is translated function by
-- function.

namespace UnoSpec

/-- Inertia of a symmetric factorization: the numbers of positive, negative and zero
eigenvalues reported by the direct linear solver (struct Inertia in the C++ sources,
compared for equality against an expected inertia). -/
structure Inertia where
  positive : Nat
  negative : Nat
  zero : Nat
deriving DecidableEq, Repr

/-- Outcome of a regularization loop: a successful factorization at a regularization
value, the UnstableRegularization signal, or fuel exhaustion (an artifact of the
bounded model, never reached for adequate fuel). -/
inductive RegOutcome where
  | success (delta : ℚ)
  | unstable
  | fuelOut
deriving DecidableEq, Repr

/-- Option values read by the PrimalRegularization constructor:
regularization_initial_value, regularization_increase_factor and
regularization_failure_threshold. -/
structure RegularizationOptions where
  initialValue : ℚ
  increaseFactor : ℚ
  failureThreshold : ℚ
deriving DecidableEq, Repr

/-- Growth of the regularization factor on an inertia mismatch, from
PrimalRegularization::regularize_hessian: a zero factor is bumped to
regularization_initial_value, a nonzero factor is multiplied by
regularization_increase_factor. -/
def growRegularization (o : RegularizationOptions) (delta : ℚ) : ℚ :=
  if delta = 0 then o.initialValue else o.increaseFactor * delta

/-- The while loop of PrimalRegularization::regularize_hessian. The linear solver is
abstracted by `inertiaOf`, mapping the regularization value installed on the primal
diagonal to the inertia reported after numerical factorization. Returns the list of
regularization values factorized, in order, together with the outcome. -/
def regularizationLoop (o : RegularizationOptions) (inertiaOf : ℚ → Inertia)
    (expected : Inertia) (delta : ℚ) : Nat → List ℚ × RegOutcome
  | 0 => ([], RegOutcome.fuelOut)
  | fuel + 1 =>
    if inertiaOf delta = expected then
      ([delta], RegOutcome.success delta)
    else
      if o.failureThreshold < growRegularization o delta then
        ([delta], RegOutcome.unstable)
      else
        (delta :: (regularizationLoop o inertiaOf expected (growRegularization o delta) fuel).1,
          (regularizationLoop o inertiaOf expected (growRegularization o delta) fuel).2)

/-- Seed of PrimalRegularization::regularize_hessian: 0 when the smallest diagonal
entry of the matrix over the primal indices is positive, otherwise
regularization_initial_value minus that smallest diagonal entry. -/
def regularizationSeed (o : RegularizationOptions) (smallestDiagonalEntry : ℚ) : ℚ :=
  if 0 < smallestDiagonalEntry then 0 else o.initialValue - smallestDiagonalEntry

/-- PrimalRegularization::regularize_hessian: seed the regularization value from the
smallest diagonal entry, then run the factorization loop. -/
def regularizeHessian (o : RegularizationOptions) (inertiaOf : ℚ → Inertia)
    (expected : Inertia) (smallestDiagonalEntry : ℚ) (fuel : Nat) : List ℚ × RegOutcome :=
  regularizationLoop o inertiaOf expected (regularizationSeed o smallestDiagonalEntry) fuel

/-- Seed of the Hessian regularization in InteriorPoint::regularize_kkt_matrix when the
unregularized factorization has wrong inertia: 1e-4 on the very first regularization,
otherwise max(1e-20, previous regularization / 3). -/
def ipRegularizationSeed (previousRegularization : ℚ) : ℚ :=
  if previousRegularization = 0 then 1 / 10000
  else max (1 / 10 ^ 20) (previousRegularization / 3)

/-- Growth factor of the Hessian regularization in InteriorPoint::regularize_kkt_matrix:
100 when no previous regularization was recorded, 8 otherwise. -/
def ipGrowthFactor (previousRegularization : ℚ) : ℚ :=
  if previousRegularization = 0 then 100 else 8

/-- The while loop of InteriorPoint::regularize_kkt_matrix. `inertiaGood` abstracts the
test that the factorized matrix is nonsingular with exactly size_second_block negative
eigenvalues. Returns the list of regularization values installed on the diagonal and
factorized inside the loop, with the outcome. -/
def ipRegularizationLoop (previousRegularization threshold : ℚ) (inertiaGood : ℚ → Bool)
    (delta : ℚ) : Nat → List ℚ × RegOutcome
  | 0 => ([], RegOutcome.fuelOut)
  | fuel + 1 =>
    if inertiaGood delta then
      ([delta], RegOutcome.success delta)
    else
      if ipGrowthFactor previousRegularization * delta ≤ threshold then
        (delta :: (ipRegularizationLoop previousRegularization threshold inertiaGood
            (ipGrowthFactor previousRegularization * delta) fuel).1,
          (ipRegularizationLoop previousRegularization threshold inertiaGood
            (ipGrowthFactor previousRegularization * delta) fuel).2)
      else
        ([delta], RegOutcome.unstable)

lemma regularizationLoop_head (o : RegularizationOptions) (inertiaOf : ℚ → Inertia)
    (expected : Inertia) (delta : ℚ) (fuel : Nat) (hfuel : 0 < fuel) :
    (regularizationLoop o inertiaOf expected delta fuel).1.head? = some delta := by
  cases fuel with
  | zero => omega
  | succ n =>
    unfold regularizationLoop
    split
    · rfl
    · split
      · rfl
      · rfl

lemma regularizationLoop_chain (o : RegularizationOptions) (inertiaOf : ℚ → Inertia)
    (expected : Inertia) :
    ∀ (fuel : Nat) (delta : ℚ),
      List.Chain' (fun a b => b = growRegularization o a)
        (regularizationLoop o inertiaOf expected delta fuel).1 := by
  intro fuel
  induction fuel with
  | zero => intro delta; simp [regularizationLoop]
  | succ n ih =>
    intro delta
    unfold regularizationLoop
    split
    · simp
    · split
      · simp
      · rw [List.chain'_cons']
        refine ⟨?_, ih (growRegularization o delta)⟩
        intro b hb
        cases n with
        | zero => simp [regularizationLoop] at hb
        | succ m =>
          rw [regularizationLoop_head o inertiaOf expected _ _ (Nat.succ_pos m)] at hb
          simp at hb
          exact hb.symm

lemma regularizationLoop_unstable (o : RegularizationOptions) (inertiaOf : ℚ → Inertia)
    (expected : Inertia) :
    ∀ (fuel : Nat) (delta : ℚ),
      (regularizationLoop o inertiaOf expected delta fuel).2 = RegOutcome.unstable →
      ∃ last, (regularizationLoop o inertiaOf expected delta fuel).1.getLast? = some last ∧
        inertiaOf last ≠ expected ∧ o.failureThreshold < growRegularization o last := by
  intro fuel
  induction fuel with
  | zero => intro delta h; simp [regularizationLoop] at h
  | succ n ih =>
    intro delta h
    unfold regularizationLoop at h ⊢
    split at h
    · simp at h
    · rename_i hmismatch
      split at h
      · rename_i hthreshold
        refine ⟨delta, ?_, hmismatch, hthreshold⟩
        rw [if_neg hmismatch, if_pos hthreshold]
        rfl
      · rename_i hthreshold
        simp only at h
        obtain ⟨last, hlast, hmm, hth⟩ := ih (growRegularization o delta) h
        refine ⟨last, ?_, hmm, hth⟩
        rw [if_neg hmismatch, if_neg hthreshold]
        have hne : (regularizationLoop o inertiaOf expected (growRegularization o delta) n).1 ≠ [] := by
          cases n with
          | zero => simp [regularizationLoop] at h
          | succ m =>
            have hh := regularizationLoop_head o inertiaOf expected
              (growRegularization o delta) (m + 1) (Nat.succ_pos m)
            intro hnil
            rw [hnil] at hh
            simp at hh
        obtain ⟨b, t, hbt⟩ := List.exists_cons_of_ne_nil hne
        rw [hbt] at hlast
        rw [hbt]
        show (delta :: b :: t).getLast? = some last
        rw [List.getLast?_cons_cons]
        exact hlast

lemma regularizationLoop_success (o : RegularizationOptions) (inertiaOf : ℚ → Inertia)
    (expected : Inertia) :
    ∀ (fuel : Nat) (delta d : ℚ),
      (regularizationLoop o inertiaOf expected delta fuel).2 = RegOutcome.success d →
      inertiaOf d = expected ∧
        (regularizationLoop o inertiaOf expected delta fuel).1.getLast? = some d := by
  intro fuel
  induction fuel with
  | zero => intro delta d h; simp [regularizationLoop] at h
  | succ n ih =>
    intro delta d h
    unfold regularizationLoop at h ⊢
    split at h
    · rename_i hmatch
      simp at h
      subst h
      refine ⟨hmatch, ?_⟩
      rw [if_pos hmatch]
      rfl
    · rename_i hmismatch
      split at h
      · simp at h
      · rename_i hthreshold
        simp only at h
        obtain ⟨hinertia, hlast⟩ := ih (growRegularization o delta) d h
        refine ⟨hinertia, ?_⟩
        rw [if_neg hmismatch, if_neg hthreshold]
        have hne : (regularizationLoop o inertiaOf expected (growRegularization o delta) n).1 ≠ [] := by
          cases n with
          | zero => simp [regularizationLoop] at h
          | succ m =>
            have hh := regularizationLoop_head o inertiaOf expected
              (growRegularization o delta) (m + 1) (Nat.succ_pos m)
            intro hnil
            rw [hnil] at hh
            simp at hh
        obtain ⟨b, t, hbt⟩ := List.exists_cons_of_ne_nil hne
        rw [hbt] at hlast
        rw [hbt]
        show (delta :: b :: t).getLast? = some d
        rw [List.getLast?_cons_cons]
        exact hlast

/-- C1: in every call to the regularization strategy (PrimalRegularization) on a
symmetric indefinite matrix with an expected inertia, the first factorized
regularization value is 0 when the smallest diagonal entry over the primal indices is
positive and regularization_initial_value minus that entry otherwise; every successive
value is obtained from its predecessor by the geometric growth rule (a zero value is
bumped to the initial value, a nonzero value is multiplied by the increase factor); and
the call signals UnstableRegularization, rather than committing a factorization,
exactly after a mismatched value whose grown successor exceeds the failure threshold,
while a successful outcome commits the last factorized value with matching inertia. -/
theorem primal_regularization_seed_growth_failure (o : RegularizationOptions)
    (inertiaOf : ℚ → Inertia) (expected : Inertia) (minDiag : ℚ) (fuel : Nat)
    (hfuel : 0 < fuel) :
    (regularizeHessian o inertiaOf expected minDiag fuel).1.head? =
      some (if 0 < minDiag then 0 else o.initialValue - minDiag) ∧
    List.Chain' (fun a b => b = growRegularization o a)
      (regularizeHessian o inertiaOf expected minDiag fuel).1 ∧
    ((regularizeHessian o inertiaOf expected minDiag fuel).2 = RegOutcome.unstable →
      ∃ last, (regularizeHessian o inertiaOf expected minDiag fuel).1.getLast? = some last ∧
        inertiaOf last ≠ expected ∧ o.failureThreshold < growRegularization o last) ∧
    (∀ d, (regularizeHessian o inertiaOf expected minDiag fuel).2 = RegOutcome.success d →
      inertiaOf d = expected ∧
        (regularizeHessian o inertiaOf expected minDiag fuel).1.getLast? = some d) := by
  refine ⟨?_, ?_, ?_, ?_⟩
  · rw [regularizeHessian, regularizationLoop_head o inertiaOf expected _ _ hfuel]
    rfl
  · exact regularizationLoop_chain o inertiaOf expected fuel _
  · exact regularizationLoop_unstable o inertiaOf expected fuel _
  · intro d
    exact regularizationLoop_success o inertiaOf expected fuel _ d

/-- Concrete run of the C1 theorem: an oracle that reports the expected inertia exactly
from regularization value 3 onwards, seeded from a nonpositive smallest diagonal entry. -/
theorem primal_regularization_seed_growth_failure_witness :
    (regularizeHessian ⟨1, 8, 1000⟩
        (fun d => if 3 ≤ d then ⟨2, 1, 0⟩ else ⟨1, 2, 0⟩) ⟨2, 1, 0⟩ (-1) 5).1.head? =
      some (if 0 < (-1 : ℚ) then 0 else (⟨1, 8, 1000⟩ : RegularizationOptions).initialValue - (-1)) ∧
    List.Chain' (fun a b => b = growRegularization ⟨1, 8, 1000⟩ a)
      (regularizeHessian ⟨1, 8, 1000⟩
        (fun d => if 3 ≤ d then ⟨2, 1, 0⟩ else ⟨1, 2, 0⟩) ⟨2, 1, 0⟩ (-1) 5).1 ∧
    ((regularizeHessian ⟨1, 8, 1000⟩
        (fun d => if 3 ≤ d then ⟨2, 1, 0⟩ else ⟨1, 2, 0⟩) ⟨2, 1, 0⟩ (-1) 5).2 = RegOutcome.unstable →
      ∃ last, (regularizeHessian ⟨1, 8, 1000⟩
          (fun d => if 3 ≤ d then ⟨2, 1, 0⟩ else ⟨1, 2, 0⟩) ⟨2, 1, 0⟩ (-1) 5).1.getLast? = some last ∧
        (fun d => if 3 ≤ d then (⟨2, 1, 0⟩ : Inertia) else ⟨1, 2, 0⟩) last ≠ ⟨2, 1, 0⟩ ∧
        (⟨1, 8, 1000⟩ : RegularizationOptions).failureThreshold < growRegularization ⟨1, 8, 1000⟩ last) ∧
    (∀ d, (regularizeHessian ⟨1, 8, 1000⟩
        (fun d => if 3 ≤ d then ⟨2, 1, 0⟩ else ⟨1, 2, 0⟩) ⟨2, 1, 0⟩ (-1) 5).2 = RegOutcome.success d →
      (fun d => if 3 ≤ d then (⟨2, 1, 0⟩ : Inertia) else ⟨1, 2, 0⟩) d = ⟨2, 1, 0⟩ ∧
        (regularizeHessian ⟨1, 8, 1000⟩
          (fun d => if 3 ≤ d then ⟨2, 1, 0⟩ else ⟨1, 2, 0⟩) ⟨2, 1, 0⟩ (-1) 5).1.getLast? = some d) :=
  primal_regularization_seed_growth_failure ⟨1, 8, 1000⟩
    (fun d => if 3 ≤ d then ⟨2, 1, 0⟩ else ⟨1, 2, 0⟩) ⟨2, 1, 0⟩ (-1) 5 (by norm_num)

lemma lt_growRegularization (o : RegularizationOptions) (hInit : 0 < o.initialValue)
    (hGrow : 1 < o.increaseFactor) (delta : ℚ) (hd : 0 ≤ delta) :
    delta < growRegularization o delta := by
  unfold growRegularization
  split
  · rename_i hzero
    rw [hzero]
    exact hInit
  · rename_i hzero
    have hpos : 0 < delta := lt_of_le_of_ne hd (fun habs => hzero habs.symm)
    calc delta = 1 * delta := (one_mul delta).symm
      _ < o.increaseFactor * delta := by
          exact mul_lt_mul_of_pos_right hGrow hpos

lemma regularizationLoop_chain_lt (o : RegularizationOptions) (hInit : 0 < o.initialValue)
    (hGrow : 1 < o.increaseFactor) (inertiaOf : ℚ → Inertia) (expected : Inertia) :
    ∀ (fuel : Nat) (delta : ℚ), 0 ≤ delta →
      List.Chain' (· < ·) (regularizationLoop o inertiaOf expected delta fuel).1 := by
  intro fuel
  induction fuel with
  | zero => intro delta _; simp [regularizationLoop]
  | succ n ih =>
    intro delta hd
    unfold regularizationLoop
    split
    · simp
    · split
      · simp
      · rw [List.chain'_cons']
        have hgrow := lt_growRegularization o hInit hGrow delta hd
        refine ⟨?_, ih (growRegularization o delta) (le_of_lt (lt_of_le_of_lt hd hgrow))⟩
        intro b hb
        cases n with
        | zero => simp [regularizationLoop] at hb
        | succ m =>
          rw [regularizationLoop_head o inertiaOf expected _ _ (Nat.succ_pos m)] at hb
          simp at hb
          rw [← hb]
          exact hgrow

lemma ipRegularizationSeed_pos (previousRegularization : ℚ) :
    0 < ipRegularizationSeed previousRegularization := by
  unfold ipRegularizationSeed
  split
  · norm_num
  · have h : (0 : ℚ) < 1 / 10 ^ 20 := by norm_num
    exact lt_of_lt_of_le h (le_max_left _ _)

lemma one_lt_ipGrowthFactor (previousRegularization : ℚ) :
    1 < ipGrowthFactor previousRegularization := by
  unfold ipGrowthFactor
  split <;> norm_num

lemma ipRegularizationLoop_head (previousRegularization threshold : ℚ)
    (inertiaGood : ℚ → Bool) (delta : ℚ) (fuel : Nat) (hfuel : 0 < fuel) :
    (ipRegularizationLoop previousRegularization threshold inertiaGood delta fuel).1.head? =
      some delta := by
  cases fuel with
  | zero => omega
  | succ n =>
    unfold ipRegularizationLoop
    split
    · rfl
    · split
      · rfl
      · rfl

lemma ipRegularizationLoop_chain_lt (previousRegularization threshold : ℚ)
    (inertiaGood : ℚ → Bool) :
    ∀ (fuel : Nat) (delta : ℚ), 0 < delta →
      List.Chain' (· < ·)
        (ipRegularizationLoop previousRegularization threshold inertiaGood delta fuel).1 := by
  intro fuel
  induction fuel with
  | zero => intro delta _; simp [ipRegularizationLoop]
  | succ n ih =>
    intro delta hd
    unfold ipRegularizationLoop
    split
    · simp
    · split
      · rw [List.chain'_cons']
        have hgrow : delta < ipGrowthFactor previousRegularization * delta := by
          calc delta = 1 * delta := (one_mul delta).symm
            _ < ipGrowthFactor previousRegularization * delta :=
                mul_lt_mul_of_pos_right (one_lt_ipGrowthFactor previousRegularization) hd
        refine ⟨?_, ih (ipGrowthFactor previousRegularization * delta) (lt_trans hd hgrow)⟩
        intro b hb
        cases n with
        | zero => simp [ipRegularizationLoop] at hb
        | succ m =>
          rw [ipRegularizationLoop_head previousRegularization threshold inertiaGood _ _
            (Nat.succ_pos m)] at hb
          simp at hb
          rw [← hb]
          exact hgrow
      · simp

/-- C8: within a single call to the regularization loop, the sequence of regularization
values installed on the diagonal and factorized is strictly increasing. This holds both
for PrimalRegularization::regularize_hessian (for any positive initial value and any
increase factor above 1, as configured) and for the loop of
InteriorPoint::regularize_kkt_matrix (whose seed and growth factors are hard-coded
positive constants). -/
theorem regularization_deltas_strictly_increasing (o : RegularizationOptions)
    (hInit : 0 < o.initialValue) (hGrow : 1 < o.increaseFactor)
    (inertiaOf : ℚ → Inertia) (expected : Inertia) (minDiag : ℚ) (fuel : Nat)
    (previousRegularization threshold : ℚ) (inertiaGood : ℚ → Bool) (ipFuel : Nat) :
    List.Chain' (· < ·) (regularizeHessian o inertiaOf expected minDiag fuel).1 ∧
    List.Chain' (· < ·)
      (ipRegularizationLoop previousRegularization threshold inertiaGood
        (ipRegularizationSeed previousRegularization) ipFuel).1 := by
  constructor
  · apply regularizationLoop_chain_lt o hInit hGrow inertiaOf expected fuel
    unfold regularizationSeed
    split
    · exact le_refl 0
    · rename_i hneg
      push_neg at hneg
      have : 0 < o.initialValue - minDiag := by linarith
      exact le_of_lt this
  · exact ipRegularizationLoop_chain_lt previousRegularization threshold inertiaGood ipFuel
      (ipRegularizationSeed previousRegularization) (ipRegularizationSeed_pos _)

/-- Concrete run of the C8 theorem: both loops produce strictly increasing
regularization sequences on a concrete oracle that never matches until value 64. -/
theorem regularization_deltas_strictly_increasing_witness :
    List.Chain' (· < ·)
      (regularizeHessian ⟨1, 8, 1000⟩
        (fun d => if 64 ≤ d then ⟨2, 1, 0⟩ else ⟨1, 2, 0⟩) ⟨2, 1, 0⟩ (-1) 6).1 ∧
    List.Chain' (· < ·)
      (ipRegularizationLoop 0 1000 (fun d => decide (64 ≤ d))
        (ipRegularizationSeed 0) 6).1 :=
  regularization_deltas_strictly_increasing ⟨1, 8, 1000⟩ (by norm_num) (by norm_num)
    (fun d => if 64 ≤ d then ⟨2, 1, 0⟩ else ⟨1, 2, 0⟩) ⟨2, 1, 0⟩ (-1) 6
    0 1000 (fun d => decide (64 ≤ d)) 6

/-- Accumulation step shared by the fraction-to-boundary rules of
PrimalDualInteriorPointSubproblem: a candidate step length is taken into the running
minimum only when it is positive. -/
def fractionToBoundaryStep (acc trial : ℚ) : ℚ :=
  if 0 < trial then min acc trial else acc

/-- PrimalDualInteriorPointSubproblem::primal_fraction_to_boundary: the running minimum
starts at 1; every lower-bounded variable whose primal direction component is negative
contributes the candidate -tau (x - xL) / dx, every upper-bounded variable whose
component is positive contributes -tau (x - xU) / dx. -/
def primalFractionToBoundary (lowerBounded upperBounded : List Nat)
    (x lowerBound upperBound dx : Nat → ℚ) (tau : ℚ) : ℚ :=
  upperBounded.foldl
    (fun acc i =>
      if 0 < dx i then fractionToBoundaryStep acc (-tau * (x i - upperBound i) / dx i) else acc)
    (lowerBounded.foldl
      (fun acc i =>
        if dx i < 0 then fractionToBoundaryStep acc (-tau * (x i - lowerBound i) / dx i) else acc)
      1)

/-- PrimalDualInteriorPointSubproblem::dual_fraction_to_boundary: same rule over the
bound-multiplier displacements lower_delta_z and upper_delta_z. -/
def dualFractionToBoundary (lowerBounded upperBounded : List Nat)
    (zLower zUpper dzLower dzUpper : Nat → ℚ) (tau : ℚ) : ℚ :=
  upperBounded.foldl
    (fun acc i =>
      if 0 < dzUpper i then fractionToBoundaryStep acc (-tau * zUpper i / dzUpper i) else acc)
    (lowerBounded.foldl
      (fun acc i =>
        if dzLower i < 0 then fractionToBoundaryStep acc (-tau * zLower i / dzLower i) else acc)
      1)

lemma fractionToBoundaryStep_unit (acc trial : ℚ) (h0 : 0 < acc) (h1 : acc ≤ 1) :
    0 < fractionToBoundaryStep acc trial ∧ fractionToBoundaryStep acc trial ≤ 1 := by
  unfold fractionToBoundaryStep
  split
  · rename_i htrial
    exact ⟨lt_min h0 htrial, le_trans (min_le_left _ _) h1⟩
  · exact ⟨h0, h1⟩

lemma foldl_fractionToBoundary_unit (f : ℚ → Nat → ℚ)
    (hf : ∀ acc i, 0 < acc → acc ≤ 1 → 0 < f acc i ∧ f acc i ≤ 1) :
    ∀ (l : List Nat) (acc : ℚ), 0 < acc → acc ≤ 1 →
      0 < l.foldl f acc ∧ l.foldl f acc ≤ 1 := by
  intro l
  induction l with
  | nil => intro acc h0 h1; exact ⟨h0, h1⟩
  | cons a t ih =>
    intro acc h0 h1
    have hstep := hf acc a h0 h1
    exact ih (f acc a) hstep.1 hstep.2

lemma guardedStep_unit (p : Nat → Prop) [DecidablePred p] (trial : Nat → ℚ) :
    ∀ acc i, 0 < acc → acc ≤ 1 →
      0 < (if p i then fractionToBoundaryStep acc (trial i) else acc) ∧
      (if p i then fractionToBoundaryStep acc (trial i) else acc) ≤ 1 := by
  intro acc i h0 h1
  split
  · exact fractionToBoundaryStep_unit acc (trial i) h0 h1
  · exact ⟨h0, h1⟩

/-- C2: for every interior-point solve at an iterate that is strictly interior to its
finite bounds, with positive lower-bound multipliers, negative upper-bound multipliers
and tau = max(tau_min, 1 - mu) for tau_min in (0, 1), both the primal and the dual
fraction-to-boundary factors lie in (0, 1], so the assertions guarding them never
fire. -/
theorem fraction_to_boundary_factors_in_unit_interval
    (lowerBounded upperBounded : List Nat) (x lowerBound upperBound dx : Nat → ℚ)
    (zLower zUpper dzLower dzUpper : Nat → ℚ) (tauMin mu tau : ℚ)
    (htauMin0 : 0 < tauMin) (htauMin1 : tauMin < 1) (htau : tau = max tauMin (1 - mu))
    (hxl : ∀ i ∈ lowerBounded, lowerBound i < x i)
    (hxu : ∀ i ∈ upperBounded, x i < upperBound i)
    (hzl : ∀ i ∈ lowerBounded, 0 < zLower i)
    (hzu : ∀ i ∈ upperBounded, zUpper i < 0) :
    (0 < primalFractionToBoundary lowerBounded upperBounded x lowerBound upperBound dx tau ∧
      primalFractionToBoundary lowerBounded upperBounded x lowerBound upperBound dx tau ≤ 1) ∧
    (0 < dualFractionToBoundary lowerBounded upperBounded zLower zUpper dzLower dzUpper tau ∧
      dualFractionToBoundary lowerBounded upperBounded zLower zUpper dzLower dzUpper tau ≤ 1) := by
  constructor
  · unfold primalFractionToBoundary
    have hinner := foldl_fractionToBoundary_unit _
      (guardedStep_unit (fun i => dx i < 0) (fun i => -tau * (x i - lowerBound i) / dx i))
      lowerBounded 1 one_pos (le_refl 1)
    exact foldl_fractionToBoundary_unit _
      (guardedStep_unit (fun i => 0 < dx i) (fun i => -tau * (x i - upperBound i) / dx i))
      upperBounded _ hinner.1 hinner.2
  · unfold dualFractionToBoundary
    have hinner := foldl_fractionToBoundary_unit _
      (guardedStep_unit (fun i => dzLower i < 0) (fun i => -tau * zLower i / dzLower i))
      lowerBounded 1 one_pos (le_refl 1)
    exact foldl_fractionToBoundary_unit _
      (guardedStep_unit (fun i => 0 < dzUpper i) (fun i => -tau * zUpper i / dzUpper i))
      upperBounded _ hinner.1 hinner.2

/-- Concrete run of the C2 theorem: one lower-bounded and one upper-bounded variable,
a strictly interior iterate, correctly signed multipliers, mu = 1/10 and
tau_min = 99/100. -/
theorem fraction_to_boundary_factors_in_unit_interval_witness :
    (0 < primalFractionToBoundary [0] [1] (fun _ => 1) (fun _ => 0) (fun _ => 2)
        (fun i => if i = 0 then -3 else 3) (max (99 / 100) (1 - 1 / 10)) ∧
      primalFractionToBoundary [0] [1] (fun _ => 1) (fun _ => 0) (fun _ => 2)
        (fun i => if i = 0 then -3 else 3) (max (99 / 100) (1 - 1 / 10)) ≤ 1) ∧
    (0 < dualFractionToBoundary [0] [1] (fun _ => 1) (fun _ => -1) (fun _ => -2)
        (fun _ => 2) (max (99 / 100) (1 - 1 / 10)) ∧
      dualFractionToBoundary [0] [1] (fun _ => 1) (fun _ => -1) (fun _ => -2)
        (fun _ => 2) (max (99 / 100) (1 - 1 / 10)) ≤ 1) :=
  fraction_to_boundary_factors_in_unit_interval [0] [1] (fun _ => 1) (fun _ => 0)
    (fun _ => 2) (fun i => if i = 0 then -3 else 3) (fun _ => 1) (fun _ => -1)
    (fun _ => -2) (fun _ => 2) (99 / 100) (1 / 10) (max (99 / 100) (1 - 1 / 10))
    (by norm_num) (by norm_num) rfl
    (by intro i hi; simp at hi; subst hi; norm_num)
    (by intro i hi; simp at hi; subst hi; norm_num)
    (by intro i hi; simp at hi; subst hi; norm_num)
    (by intro i hi; simp at hi; subst hi; norm_num)

/-- Barrier bookkeeping state of PrimalDualInteriorPointMethod: the barrier parameter
held by the update strategy, the saved previous parameter, and the
solving_feasibility_problem / first_feasibility_iteration /
subproblem_definition_changed flags. -/
structure BarrierState where
  barrierParameter : ℚ
  previousBarrierParameter : ℚ
  solvingFeasibilityProblem : Bool
  firstFeasibilityIteration : Bool
  subproblemDefinitionChanged : Bool
deriving DecidableEq, Repr

/-- Infinity norm of a vector, as used by norm_inf on the constraint values. -/
def normInf (v : List ℚ) : ℚ := v.foldl (fun acc c => max acc |c|) 0

/-- PrimalDualInteriorPointMethod::initialize_feasibility_problem: raise the flags,
save the current barrier parameter and bump it to the max of itself and the norm of
the constraint violation (norm_inf of the constraint values in
PrimalDualInteriorPointSubproblem::initialize_feasibility_problem). -/
def enterFeasibilityProblem (constraintValues : List ℚ) (s : BarrierState) : BarrierState :=
  { s with
    solvingFeasibilityProblem := true
    firstFeasibilityIteration := true
    subproblemDefinitionChanged := true
    previousBarrierParameter := s.barrierParameter
    barrierParameter := max s.barrierParameter (normInf constraintValues) }

/-- Barrier-parameter step at the top of PrimalDualInteriorPointMethod::solve: when
this is not the first feasibility iteration the update strategy (abstracted by
`updateStrategy`) may change the parameter; otherwise the update is skipped and the
flag is cleared. -/
def solveBarrierStep (updateStrategy : ℚ → ℚ) (s : BarrierState) : BarrierState :=
  if !s.firstFeasibilityIteration then
    { s with barrierParameter := updateStrategy s.barrierParameter }
  else
    { s with firstFeasibilityIteration := false }

/-- PrimalDualInteriorPointMethod::exit_feasibility_problem: restore the saved barrier
parameter and lower the feasibility flag. -/
def exitFeasibilityProblem (s : BarrierState) : BarrierState :=
  { s with
    barrierParameter := s.previousBarrierParameter
    solvingFeasibilityProblem := false }

/-- C3: entering the feasibility phase saves the current barrier parameter and sets it
to max(mu, norm_inf of the constraint values); the first subsequent solve skips the
barrier-parameter update exactly once (the parameter is untouched and the flag is
cleared), the next solve applies the update again; exiting the feasibility phase
restores the saved parameter, recovering the value held before entry. -/
theorem feasibility_phase_barrier_parameter_protocol (s : BarrierState)
    (constraintValues : List ℚ) (updateFirst updateSecond : ℚ → ℚ) :
    (enterFeasibilityProblem constraintValues s).previousBarrierParameter =
        s.barrierParameter ∧
    (enterFeasibilityProblem constraintValues s).barrierParameter =
        max s.barrierParameter (normInf constraintValues) ∧
    (enterFeasibilityProblem constraintValues s).solvingFeasibilityProblem = true ∧
    (solveBarrierStep updateFirst (enterFeasibilityProblem constraintValues s)).barrierParameter =
        max s.barrierParameter (normInf constraintValues) ∧
    (solveBarrierStep updateFirst (enterFeasibilityProblem constraintValues s)).firstFeasibilityIteration = false ∧
    (solveBarrierStep updateSecond (solveBarrierStep updateFirst
        (enterFeasibilityProblem constraintValues s))).barrierParameter =
      updateSecond (max s.barrierParameter (normInf constraintValues)) ∧
    (exitFeasibilityProblem (solveBarrierStep updateSecond (solveBarrierStep updateFirst
        (enterFeasibilityProblem constraintValues s)))).barrierParameter =
      s.barrierParameter ∧
    (∀ t : BarrierState, (exitFeasibilityProblem t).barrierParameter =
      t.previousBarrierParameter ∧ (exitFeasibilityProblem t).solvingFeasibilityProblem = false) := by
  refine ⟨rfl, rfl, rfl, ?_, ?_, ?_, ?_, ?_⟩
  · simp [solveBarrierStep, enterFeasibilityProblem]
  · simp [solveBarrierStep, enterFeasibilityProblem]
  · simp [solveBarrierStep, enterFeasibilityProblem]
  · simp [exitFeasibilityProblem, solveBarrierStep, enterFeasibilityProblem]
  · intro t
    exact ⟨rfl, rfl⟩

/-- ProgressMeasures: the (infeasibility, objective, auxiliary) triple of an iterate;
the objective measure is a function of the objective multiplier, as in the source
(set_objective_measure stores sigma multiplied by the objective value). -/
structure ProgressMeasures where
  infeasibility : ℚ
  objective : ℚ → ℚ
  auxiliary : ℚ

/-- Modelled from the spec: FilterMethod::unconstrained_merit_function is not under
src/ ; per the source comment in FletcherFilterMethod.cpp, the unconstrained measure
ignores infeasibility and scales the objective measure by 1: objective(1) + auxiliary. -/
def unconstrainedMerit (p : ProgressMeasures) : ℚ := p.objective 1 + p.auxiliary

/-- Abstract view of the Filter container and of the FilterMethod helpers whose bodies
are not under src/ (Filter::acceptable, Filter::acceptable_wrt_current_iterate,
Filter::add, SwitchingMethod::switching_condition and armijo_sufficient_decrease,
FilterMethod::compute_actual_objective_reduction): each is an oracle consumed by the
control flow of FletcherFilterMethod::is_iterate_acceptable, which is under src/. -/
structure FilterOracle where
  acceptable : List (ℚ × ℚ) → ℚ → ℚ → Bool
  acceptableWrtCurrentIterate : ℚ → ℚ → ℚ → ℚ → Bool
  switchingCondition : ℚ → ℚ → Bool
  armijoSufficientDecrease : ℚ → ℚ → Bool
  computeActualObjectiveReduction : ℚ → ℚ → ℚ → ℚ
  add : List (ℚ × ℚ) → ℚ → ℚ → List (ℚ × ℚ)

/-- FletcherFilterMethod::is_iterate_acceptable: in feasibility mode (zero objective
multiplier) an Armijo test on the infeasibility reduction alone; otherwise the filter
acceptability tests, then either the switching condition with the Armijo test (f-type)
or unconditional acceptance with the current pair added to the filter (h-type).
Returns the decision together with the filter entries after the call. -/
def fletcherIsIterateAcceptable (o : FilterOracle) (entries : List (ℚ × ℚ))
    (currentProgress trialProgress predictedReduction : ProgressMeasures)
    (objectiveMultiplier : ℚ) : Bool × List (ℚ × ℚ) :=
  if objectiveMultiplier = 0 then
    (o.armijoSufficientDecrease predictedReduction.infeasibility
      (currentProgress.infeasibility - trialProgress.infeasibility), entries)
  else
    if o.acceptable entries trialProgress.infeasibility (unconstrainedMerit trialProgress) then
      if o.acceptableWrtCurrentIterate currentProgress.infeasibility
          (unconstrainedMerit currentProgress) trialProgress.infeasibility
          (unconstrainedMerit trialProgress) then
        if o.switchingCondition (unconstrainedMerit predictedReduction)
            currentProgress.infeasibility then
          (o.armijoSufficientDecrease (unconstrainedMerit predictedReduction)
            (o.computeActualObjectiveReduction (unconstrainedMerit currentProgress)
              currentProgress.infeasibility (unconstrainedMerit trialProgress)), entries)
        else
          (true, o.add entries currentProgress.infeasibility (unconstrainedMerit currentProgress))
      else (false, entries)
    else (false, entries)

/-- C4: outside feasibility mode, a trial point that is acceptable to the filter and
acceptable with respect to the current iterate, but fails the switching condition on
the predicted merit reduction, is accepted as an h-type step, and the pair added to
the filter is the current iterate's (infeasibility, unconstrained merit) pair, not the
trial point's pair. -/
theorem fletcher_filter_h_type_adds_current_pair (o : FilterOracle)
    (entries : List (ℚ × ℚ)) (currentProgress trialProgress predictedReduction : ProgressMeasures)
    (objectiveMultiplier : ℚ) (hmode : objectiveMultiplier ≠ 0)
    (hacc : o.acceptable entries trialProgress.infeasibility
      (unconstrainedMerit trialProgress) = true)
    (hcur : o.acceptableWrtCurrentIterate currentProgress.infeasibility
      (unconstrainedMerit currentProgress) trialProgress.infeasibility
      (unconstrainedMerit trialProgress) = true)
    (hswitch : o.switchingCondition (unconstrainedMerit predictedReduction)
      currentProgress.infeasibility = false) :
    fletcherIsIterateAcceptable o entries currentProgress trialProgress predictedReduction
        objectiveMultiplier =
      (true, o.add entries currentProgress.infeasibility (unconstrainedMerit currentProgress)) := by
  unfold fletcherIsIterateAcceptable
  rw [if_neg hmode, if_pos hacc, if_pos hcur, if_neg (by rw [hswitch]; exact Bool.false_ne_true)]

/-- Concrete run of the C4 theorem: a concrete oracle whose acceptability tests pass,
whose switching condition fails, and whose add prepends; the filter gains exactly the
current pair (2, 7). -/
theorem fletcher_filter_h_type_adds_current_pair_witness :
    fletcherIsIterateAcceptable
        ⟨fun _ _ _ => true, fun _ _ _ _ => true, fun _ _ => false, fun _ _ => false,
          fun _ _ _ => 0, fun l a b => (a, b) :: l⟩
        [(9, 9)] ⟨2, fun s => 3 * s, 4⟩ ⟨1, fun s => 2 * s, 1⟩ ⟨0, fun _ => 0, 0⟩ 1 =
      (true, (2, unconstrainedMerit ⟨2, fun s => 3 * s, 4⟩) :: [(9, 9)]) :=
  fletcher_filter_h_type_adds_current_pair
    ⟨fun _ _ _ => true, fun _ _ _ _ => true, fun _ _ => false, fun _ _ => false,
      fun _ _ _ => 0, fun l a b => (a, b) :: l⟩
    [(9, 9)] ⟨2, fun s => 3 * s, 4⟩ ⟨1, fun s => 2 * s, 1⟩ ⟨0, fun _ => 0, 0⟩ 1
    (by norm_num) rfl rfl rfl

/-- Machine epsilon of an IEEE double, as an exact rational. -/
def machineEpsilon : ℚ := 1 / 2 ^ 52

/-- Modelled from the spec: GlobalizationStrategy::armijo_sufficient_decrease is not
under src/ ; per the spec the step is accepted when the actual reduction is at least
the Armijo fraction eta times the predicted reduction. -/
def armijoCondition (eta predictedReduction actualReduction : ℚ) : Bool :=
  decide (eta * predictedReduction ≤ actualReduction)

/-- l1MeritFunction::compute_merit_actual_reduction: the difference of merit values,
protected against roundoff by adding 10 machine epsilons times the magnitude of the
current merit value when the protection flag is set. -/
def computeMeritActualReduction (protectAgainstRoundoff : Bool)
    (currentMeritValue trialMeritValue : ℚ) : ℚ :=
  if protectAgainstRoundoff then
    currentMeritValue - trialMeritValue + 10 * machineEpsilon * |currentMeritValue|
  else
    currentMeritValue - trialMeritValue

/-- Merit value formed in l1MeritFunction::is_iterate_acceptable:
objective(sigma) + auxiliary + infeasibility. -/
def meritValue (p : ProgressMeasures) (objectiveMultiplier : ℚ) : ℚ :=
  p.objective objectiveMultiplier + p.auxiliary + p.infeasibility

/-- Result of l1MeritFunction::is_iterate_acceptable: the decision, whether the
non-descent warning was emitted, and the updated running infeasibility minimum. -/
structure MeritAcceptResult where
  accept : Bool
  warning : Bool
  smallestKnownInfeasibility : ℚ
deriving DecidableEq, Repr

/-- l1MeritFunction::is_iterate_acceptable: form the constrained predicted reduction
and the current and trial merit values, warn when the predicted reduction is
nonpositive, and accept by the Armijo condition on the roundoff-protected actual
reduction; on acceptance the running infeasibility minimum absorbs the trial
infeasibility. -/
def l1MeritIsIterateAcceptable (eta : ℚ) (protectAgainstRoundoff : Bool)
    (smallestKnownInfeasibility : ℚ)
    (currentProgress trialProgress predictedReduction : ProgressMeasures)
    (objectiveMultiplier : ℚ) : MeritAcceptResult :=
  { accept := armijoCondition eta
      (predictedReduction.objective objectiveMultiplier + predictedReduction.auxiliary +
        predictedReduction.infeasibility)
      (computeMeritActualReduction protectAgainstRoundoff
        (meritValue currentProgress objectiveMultiplier)
        (meritValue trialProgress objectiveMultiplier))
    warning := decide (predictedReduction.objective objectiveMultiplier +
      predictedReduction.auxiliary + predictedReduction.infeasibility ≤ 0)
    smallestKnownInfeasibility :=
      if armijoCondition eta
          (predictedReduction.objective objectiveMultiplier + predictedReduction.auxiliary +
            predictedReduction.infeasibility)
          (computeMeritActualReduction protectAgainstRoundoff
            (meritValue currentProgress objectiveMultiplier)
            (meritValue trialProgress objectiveMultiplier)) = true then
        min smallestKnownInfeasibility trialProgress.infeasibility
      else smallestKnownInfeasibility }

/-- Stated from the claim's words, for comparison with the source: the claimed merit
function sigma * f + auxiliary + rho * h, with rho a penalty parameter weighting the
infeasibility measure h. -/
def claimedMeritValue (sigma rho f auxiliary h : ℚ) : ℚ :=
  sigma * f + auxiliary + rho * h

/-- Stated from the claim's words, for comparison with the source: accept iff
(phi_cur - phi_trial) + 10 eps_machine |phi_cur| is at least eta times the predicted
reduction, with phi the claimed rho-weighted merit. -/
def claimedL1Acceptance (eta sigma rho fCur auxCur hCur fTrial auxTrial hTrial
    predictedReduction : ℚ) : Bool :=
  decide (eta * predictedReduction ≤
    claimedMeritValue sigma rho fCur auxCur hCur -
      claimedMeritValue sigma rho fTrial auxTrial hTrial +
      10 * machineEpsilon * |claimedMeritValue sigma rho fCur auxCur hCur|)

/-- C5 counterexample: at sigma = 1, rho = 2, eta = 1, current point (f, aux, h) =
(1, 0, 0), trial point (0, 0, 1) and zero predicted reduction, the code accepts the
trial point while the claimed rho-weighted acceptance test rejects it: the code's
merit weights the infeasibility by exactly 1, not by a penalty parameter rho. -/
theorem l1_merit_rho_weighted_claim_counterexample :
    (l1MeritIsIterateAcceptable 1 true 100
        ⟨0, fun s => s * 1, 0⟩ ⟨1, fun s => s * 0, 0⟩ ⟨0, fun _ => 0, 0⟩ 1).accept = true ∧
    claimedL1Acceptance 1 1 2 1 0 0 0 0 1 0 = false := by
  refine ⟨?_, ?_⟩ <;>
    norm_num [l1MeritIsIterateAcceptable, armijoCondition, computeMeritActualReduction,
      meritValue, machineEpsilon, claimedL1Acceptance, claimedMeritValue, abs_one]

/-- C5 (amended): the l1 merit function's acceptance test forms
phi = sigma * f + auxiliary + h at the current and trial points (the infeasibility
measure enters with coefficient 1; the penalty parameter acts through the objective
multiplier sigma) and, with roundoff protection on, accepts the trial point iff
(phi_cur - phi_trial) + 10 eps_machine |phi_cur| is at least eta times
predicted_reduction = p_objective(sigma) + p_auxiliary + p_infeasibility; the warning
is emitted exactly when predicted_reduction is nonpositive. -/
theorem l1_merit_acceptance_test (eta smallest : ℚ)
    (currentProgress trialProgress predictedReduction : ProgressMeasures) (sigma : ℚ) :
    ((l1MeritIsIterateAcceptable eta true smallest currentProgress trialProgress
        predictedReduction sigma).accept = true ↔
      eta * (predictedReduction.objective sigma + predictedReduction.auxiliary +
          predictedReduction.infeasibility) ≤
        meritValue currentProgress sigma - meritValue trialProgress sigma +
          10 * machineEpsilon * |meritValue currentProgress sigma|) ∧
    ((l1MeritIsIterateAcceptable eta true smallest currentProgress trialProgress
        predictedReduction sigma).warning = true ↔
      predictedReduction.objective sigma + predictedReduction.auxiliary +
        predictedReduction.infeasibility ≤ 0) := by
  constructor
  · simp [l1MeritIsIterateAcceptable, armijoCondition, computeMeritActualReduction]
  · simp [l1MeritIsIterateAcceptable]

/-- Multiplier blocks of an iterate or direction: constraint multipliers and lower and
upper bound multipliers. -/
structure Multipliers where
  constraints : List ℚ
  lowerBounds : List ℚ
  upperBounds : List ℚ
deriving DecidableEq, Repr

/-- Modelled from the spec: the body of
InequalityConstrainedMethod::compute_dual_displacements is not under src/ (only its
caller QPSubproblem::solve is; the earlier-revision ActiveSetSubproblem body under
src/ covers the constraint block). Per the spec the multiplier updates after the QP
solver returns are the displacements new minus current, blockwise. -/
def computeDualDisplacements (current solverResult : Multipliers) : Multipliers :=
  { constraints := List.zipWith (fun a b => a - b) solverResult.constraints current.constraints
    lowerBounds := List.zipWith (fun a b => a - b) solverResult.lowerBounds current.lowerBounds
    upperBounds := List.zipWith (fun a b => a - b) solverResult.upperBounds current.upperBounds }

/-- C6: after every return of the QP solver in the active-set QP method, the multiplier
components of the emitted direction are displacements: wherever the solver returned a
new multiplier and the current iterate holds one, the emitted component is their
difference, for the constraint, lower-bound and upper-bound blocks alike. -/
theorem qp_multiplier_displacements (current solverResult : Multipliers) (i : Nat)
    (lamNew lamCur zLNew zLCur zUNew zUCur : ℚ)
    (hln : solverResult.constraints.get? i = some lamNew)
    (hlc : current.constraints.get? i = some lamCur)
    (hzln : solverResult.lowerBounds.get? i = some zLNew)
    (hzlc : current.lowerBounds.get? i = some zLCur)
    (hzun : solverResult.upperBounds.get? i = some zUNew)
    (hzuc : current.upperBounds.get? i = some zUCur) :
    (computeDualDisplacements current solverResult).constraints.get? i =
        some (lamNew - lamCur) ∧
    (computeDualDisplacements current solverResult).lowerBounds.get? i =
        some (zLNew - zLCur) ∧
    (computeDualDisplacements current solverResult).upperBounds.get? i =
        some (zUNew - zUCur) := by
  unfold computeDualDisplacements
  refine ⟨?_, ?_, ?_⟩
  · rw [List.get?_zipWith', hln, hlc]
    rfl
  · rw [List.get?_zipWith', hzln, hzlc]
    rfl
  · rw [List.get?_zipWith', hzun, hzuc]
    rfl

/-- Concrete run of the C6 theorem: current multipliers (1, 2, -3) and solver result
(5, 7, -1) at index 0 give emitted displacements (4, 5, 2). -/
theorem qp_multiplier_displacements_witness :
    (computeDualDisplacements ⟨[1], [2], [-3]⟩ ⟨[5], [7], [-1]⟩).constraints.get? 0 =
        some ((5 : ℚ) - 1) ∧
    (computeDualDisplacements ⟨[1], [2], [-3]⟩ ⟨[5], [7], [-1]⟩).lowerBounds.get? 0 =
        some ((7 : ℚ) - 2) ∧
    (computeDualDisplacements ⟨[1], [2], [-3]⟩ ⟨[5], [7], [-1]⟩).upperBounds.get? 0 =
        some ((-1 : ℚ) - (-3)) :=
  qp_multiplier_displacements ⟨[1], [2], [-3]⟩ ⟨[5], [7], [-1]⟩ 0 5 1 7 2 (-1) (-3)
    rfl rfl rfl rfl rfl rfl

/-- Acceptance step at the end of Preprocessing::compute_least_square_multipliers: the
linear solve on the least-squares system is abstracted by `solution` (the vector
returned by the symmetric indefinite solver); the constraint-multiplier block lives at
indices number_variables to number_variables + number_constraints; it is kept when its
infinity norm is within the cap and discarded (multipliers unchanged) otherwise. -/
def leastSquareConstraintMultipliers (numberVariables numberConstraints : Nat)
    (solution : List ℚ) (multiplierMaxNorm : ℚ) (multipliers : List ℚ) : List ℚ :=
  if normInf ((solution.drop numberVariables).take numberConstraints) ≤ multiplierMaxNorm then
    (solution.drop numberVariables).take numberConstraints
  else multipliers

/-- Constraint multipliers produced by
PrimalDualInteriorPointMethod::generate_initial_iterate: the initial multipliers are
zero; when the problem is constrained they are estimated by the least-squares solve,
otherwise they stay zero. -/
def initialIterateConstraintMultipliers (numberVariables numberConstraints : Nat)
    (solution : List ℚ) (multiplierMaxNorm : ℚ) : List ℚ :=
  if 0 < numberConstraints then
    leastSquareConstraintMultipliers numberVariables numberConstraints solution
      multiplierMaxNorm (List.replicate numberConstraints 0)
  else List.replicate numberConstraints 0

/-- C9: for every constrained initial iterate the constraint multipliers are taken from
the least-squares linear solve, and when the infinity norm of the estimated
constraint-multiplier block exceeds the configured cap the estimate is discarded and
every multiplier is kept at zero. -/
theorem least_square_multipliers_cap (numberVariables numberConstraints : Nat)
    (solution : List ℚ) (multiplierMaxNorm : ℚ) (hm : 0 < numberConstraints) :
    initialIterateConstraintMultipliers numberVariables numberConstraints solution
        multiplierMaxNorm =
      (if normInf ((solution.drop numberVariables).take numberConstraints) ≤ multiplierMaxNorm
        then (solution.drop numberVariables).take numberConstraints
        else List.replicate numberConstraints 0) ∧
    (multiplierMaxNorm < normInf ((solution.drop numberVariables).take numberConstraints) →
      ∀ q ∈ initialIterateConstraintMultipliers numberVariables numberConstraints solution
        multiplierMaxNorm, q = 0) := by
  constructor
  · unfold initialIterateConstraintMultipliers leastSquareConstraintMultipliers
    rw [if_pos hm]
  · intro hbig q hq
    unfold initialIterateConstraintMultipliers leastSquareConstraintMultipliers at hq
    rw [if_pos hm, if_neg (not_le_of_lt hbig)] at hq
    exact List.eq_of_mem_replicate hq

/-- Concrete run of the C9 theorem: one variable, one constraint, solver solution
(5, 100) and cap 10: the estimate 100 exceeds the cap and the multiplier stays 0. -/
theorem least_square_multipliers_cap_witness :
    (initialIterateConstraintMultipliers 1 1 [5, 100] 10 =
      if normInf (([(5 : ℚ), 100].drop 1).take 1) ≤ 10
        then ([(5 : ℚ), 100].drop 1).take 1
        else List.replicate 1 0) ∧
    ((10 : ℚ) < normInf (([(5 : ℚ), 100].drop 1).take 1) →
      ∀ q ∈ initialIterateConstraintMultipliers 1 1 [5, 100] 10, q = 0) :=
  least_square_multipliers_cap 1 1 [5, 100] 10 (by norm_num)

/-- Mutable state of a globalization strategy as observed by the relaxation layer: the
filter entries and the running infeasibility minimum. -/
structure StrategyState where
  filterEntries : List (ℚ × ℚ)
  smallestKnownInfeasibility : ℚ
deriving DecidableEq, Repr

/-- Modelled from the spec: FilterMethod::reset is not under src/ ; per the spec the
strategy resets by clearing the filter when the subproblem definition changed. -/
def resetStrategy (s : StrategyState) : StrategyState :=
  { s with filterEntries := [] }

/-- State visible to ConstraintRelaxationStrategy::is_iterate_acceptable: the strategy
state together with the method's subproblem_definition_changed flag. -/
structure RelaxationAcceptanceState where
  strategy : StrategyState
  subproblemDefinitionChanged : Bool
deriving DecidableEq, Repr

/-- ConstraintRelaxationStrategy::compute_progress_measures: when the subproblem
definition changed, the globalization strategy is reset and the flag is cleared;
progress-measure evaluation itself does not touch strategy state. -/
def computeProgressMeasuresStep (st : RelaxationAcceptanceState) : RelaxationAcceptanceState :=
  if st.subproblemDefinitionChanged then
    { strategy := resetStrategy st.strategy, subproblemDefinitionChanged := false }
  else st

/-- ConstraintRelaxationStrategy::is_iterate_acceptable: after the progress-measure
step, a zero-norm direction is accepted outright; otherwise the predicted reductions
(abstracted by `predictedReductions`) are computed and the globalization strategy's
acceptance test (abstracted by `strategyTest`, returning the decision and its updated
state) decides. -/
def relaxationIsIterateAcceptable
    (strategyTest : StrategyState → ProgressMeasures → Bool × StrategyState)
    (predictedReductions : Unit → ProgressMeasures)
    (st : RelaxationAcceptanceState) (directionNorm : ℚ) : Bool × RelaxationAcceptanceState :=
  if directionNorm = 0 then
    (true, computeProgressMeasuresStep st)
  else
    ((strategyTest (computeProgressMeasuresStep st).strategy (predictedReductions ())).1,
      { computeProgressMeasuresStep st with
        strategy := (strategyTest (computeProgressMeasuresStep st).strategy
          (predictedReductions ())).2 })

/-- C10 counterexample: on a zero-norm direction with the subproblem_definition_changed
flag raised and a nonempty filter, the call accepts the trial iterate but the
strategy's state is not left unchanged: the preceding progress-measure step resets the
strategy and clears the filter. -/
theorem zero_step_strategy_reset_counterexample :
    (relaxationIsIterateAcceptable (fun s _ => (false, s)) (fun _ => ⟨0, fun _ => 0, 0⟩)
        ⟨⟨[(1, 2)], 5⟩, true⟩ 0).1 = true ∧
    (relaxationIsIterateAcceptable (fun s _ => (false, s)) (fun _ => ⟨0, fun _ => 0, 0⟩)
        ⟨⟨[(1, 2)], 5⟩, true⟩ 0).2.strategy ≠
      (⟨⟨[(1, 2)], 5⟩, true⟩ : RelaxationAcceptanceState).strategy := by
  constructor
  · simp [relaxationIsIterateAcceptable]
  · simp [relaxationIsIterateAcceptable, computeProgressMeasuresStep, resetStrategy]

/-- C10 (amended): for every call to the relaxation layer's trial-iterate acceptance
with a zero-norm direction, the trial iterate is accepted unconditionally and neither
the globalization strategy's acceptance test nor the predicted-reduction computation
is invoked (the result is independent of both); the strategy's mutable state is left
unchanged provided the subproblem definition had not changed — when it had, the
strategy is reset by the progress-measure step that precedes the zero-step check,
independently of the direction. -/
theorem zero_step_acceptance_amended
    (strategyTestA strategyTestB : StrategyState → ProgressMeasures → Bool × StrategyState)
    (predictedA predictedB : Unit → ProgressMeasures)
    (st : RelaxationAcceptanceState) (directionNorm : ℚ) (hzero : directionNorm = 0) :
    (relaxationIsIterateAcceptable strategyTestA predictedA st directionNorm).1 = true ∧
    relaxationIsIterateAcceptable strategyTestA predictedA st directionNorm =
      relaxationIsIterateAcceptable strategyTestB predictedB st directionNorm ∧
    (st.subproblemDefinitionChanged = false →
      (relaxationIsIterateAcceptable strategyTestA predictedA st directionNorm).2 = st) := by
  subst hzero
  refine ⟨?_, ?_, ?_⟩
  · simp [relaxationIsIterateAcceptable]
  · simp [relaxationIsIterateAcceptable]
  · intro hflag
    simp [relaxationIsIterateAcceptable, computeProgressMeasuresStep, hflag]

/-- Concrete run of the amended C10 theorem with two distinct strategy oracles and an
unchanged subproblem definition. -/
theorem zero_step_acceptance_amended_witness :
    (relaxationIsIterateAcceptable (fun s _ => (false, s)) (fun _ => ⟨0, fun _ => 0, 0⟩)
        ⟨⟨[(1, 2)], 5⟩, false⟩ 0).1 = true ∧
    relaxationIsIterateAcceptable (fun s _ => (false, s)) (fun _ => ⟨0, fun _ => 0, 0⟩)
        ⟨⟨[(1, 2)], 5⟩, false⟩ 0 =
      relaxationIsIterateAcceptable (fun s _ => (true, resetStrategy s)) (fun _ => ⟨1, fun _ => 1, 1⟩)
        ⟨⟨[(1, 2)], 5⟩, false⟩ 0 ∧
    ((⟨⟨[(1, 2)], 5⟩, false⟩ : RelaxationAcceptanceState).subproblemDefinitionChanged = false →
      (relaxationIsIterateAcceptable (fun s _ => (false, s)) (fun _ => ⟨0, fun _ => 0, 0⟩)
        ⟨⟨[(1, 2)], 5⟩, false⟩ 0).2 = ⟨⟨[(1, 2)], 5⟩, false⟩) :=
  zero_step_acceptance_amended (fun s _ => (false, s)) (fun s _ => (true, resetStrategy s))
    (fun _ => ⟨0, fun _ => 0, 0⟩) (fun _ => ⟨1, fun _ => 1, 1⟩)
    ⟨⟨[(1, 2)], 5⟩, false⟩ 0 rfl

/-- Subset of IterateStatus relevant to termination checking. -/
inductive IterateStatus where
  | notOptimal
  | feasibleKKTPoint
  | feasibleSmallStep
  | infeasibleStationaryPoint
  | unbounded
deriving DecidableEq, Repr

/-- Truth values, at one tolerance, of the individual criteria evaluated by
ConstraintRelaxationStrategy::check_first_order_convergence. -/
structure ConvergenceTests where
  stationarity : Bool
  primalFeasibility : Bool
  complementarity : Bool
  feasibilityStationarity : Bool
  feasibilityComplementarity : Bool
  noTrivialDuals : Bool
deriving DecidableEq, Repr

/-- ConstraintRelaxationStrategy::check_first_order_convergence: a feasible KKT point
when stationarity, primal feasibility, a positive objective multiplier and
complementarity all hold; an infeasible stationary point when the model is
constrained, the feasibility residuals vanish, primal feasibility fails and the
feasibility multipliers are not all trivial; otherwise not optimal. -/
def checkFirstOrderConvergence (modelIsConstrained objectiveMultiplierPositive : Bool)
    (t : ConvergenceTests) : IterateStatus :=
  if t.stationarity && t.primalFeasibility && objectiveMultiplierPositive &&
      t.complementarity then
    IterateStatus.feasibleKKTPoint
  else if modelIsConstrained && t.feasibilityStationarity && !t.primalFeasibility &&
      t.feasibilityComplementarity && t.noTrivialDuals then
    IterateStatus.infeasibleStationaryPoint
  else IterateStatus.notOptimal

/-- Per-call data consumed by ConstraintRelaxationStrategy::check_termination: whether
the objective fell below the unboundedness threshold, the model and multiplier facts,
the criteria at the tight and at the loose tolerance, and whether the loose tolerance
is strictly looser than the tight one. -/
structure TerminationInput where
  objectiveBelowUnboundedThreshold : Bool
  modelIsConstrained : Bool
  objectiveMultiplierPositive : Bool
  tightTests : ConvergenceTests
  looseTests : ConvergenceTests
  looseStrictlyLooser : Bool
deriving DecidableEq, Repr

/-- Convergence status of a call at the tight tolerance. -/
def tightStatus (inp : TerminationInput) : IterateStatus :=
  checkFirstOrderConvergence inp.modelIsConstrained inp.objectiveMultiplierPositive
    inp.tightTests

/-- Convergence status of a call at the loose tolerance. -/
def looseStatus (inp : TerminationInput) : IterateStatus :=
  checkFirstOrderConvergence inp.modelIsConstrained inp.objectiveMultiplierPositive
    inp.looseTests

/-- ConstraintRelaxationStrategy::check_termination, as a transition on the
loose_tolerance_consecutive_iterations counter: unbounded objective first, then the
tight-tolerance status (also returned when the loose tolerance is not strictly
looser), then the loose-tolerance status, gated by K consecutive successful loose
tests; a failing loose test resets the counter. -/
def checkTermination (K : Nat) (counter : Nat) (inp : TerminationInput) :
    IterateStatus × Nat :=
  if inp.objectiveBelowUnboundedThreshold then (IterateStatus.unbounded, counter)
  else if tightStatus inp ≠ IterateStatus.notOptimal ∨ inp.looseStrictlyLooser = false then
    (tightStatus inp, counter)
  else if looseStatus inp ≠ IterateStatus.notOptimal then
    (if K ≤ counter + 1 then looseStatus inp else IterateStatus.notOptimal, counter + 1)
  else (IterateStatus.notOptimal, 0)

/-- A call reaches the loose-tolerance test when the objective is not unbounded, the
tight test is not conclusive, and the loose tolerance is strictly looser. -/
def reachesLoose (inp : TerminationInput) : Bool :=
  !inp.objectiveBelowUnboundedThreshold &&
    decide (tightStatus inp = IterateStatus.notOptimal) && inp.looseStrictlyLooser

/-- The loose-tolerance test holds on a call. -/
def loosePass (inp : TerminationInput) : Bool :=
  decide (looseStatus inp ≠ IterateStatus.notOptimal)

/-- Counter value after a sequence of check_termination calls. -/
def runCounter (K : Nat) (counter : Nat) (calls : List TerminationInput) : Nat :=
  calls.foldl (fun acc inp => (checkTermination K acc inp).2) counter

lemma checkTermination_of_reaches (K counter : Nat) (inp : TerminationInput)
    (h : reachesLoose inp = true) :
    checkTermination K counter inp =
      if loosePass inp = true then
        (if K ≤ counter + 1 then looseStatus inp else IterateStatus.notOptimal, counter + 1)
      else (IterateStatus.notOptimal, 0) := by
  unfold reachesLoose at h
  simp only [Bool.and_eq_true, Bool.not_eq_true', decide_eq_true_eq] at h
  obtain ⟨⟨h1, h2⟩, h3⟩ := h
  unfold checkTermination loosePass
  rw [if_neg (by simp [h1]), if_neg (by simp [h2, h3])]
  by_cases hl : looseStatus inp = IterateStatus.notOptimal
  · have hd : ¬(decide (looseStatus inp ≠ IterateStatus.notOptimal) = true) := by simp [hl]
    rw [if_neg (not_ne_iff.mpr hl), if_neg hd]
  · have hd : decide (looseStatus inp ≠ IterateStatus.notOptimal) = true := by simp [hl]
    rw [if_pos hl, if_pos hd]

lemma runCounter_cons (K counter : Nat) (a : TerminationInput) (t : List TerminationInput) :
    runCounter K counter (a :: t) = runCounter K (checkTermination K counter a).2 t := rfl

lemma runCounter_suffix (K : Nat) :
    ∀ (calls : List TerminationInput) (counter : Nat),
      (∀ inp ∈ calls, reachesLoose inp = true) →
      ∃ s, List.IsSuffix s calls ∧ (∀ inp ∈ s, loosePass inp = true) ∧
        runCounter K counter calls ≤ s.length + counter ∧
        (s.length < calls.length → runCounter K counter calls ≤ s.length) := by
  intro calls
  induction calls with
  | nil =>
    intro counter _
    exact ⟨[], List.nil_suffix, by simp, by simp [runCounter], by simp⟩
  | cons a t ih =>
    intro counter hall
    have ha := hall a (List.mem_cons_self a t)
    have ht : ∀ inp ∈ t, reachesLoose inp = true :=
      fun inp hi => hall inp (List.mem_cons_of_mem a hi)
    rw [runCounter_cons, checkTermination_of_reaches K counter a ha]
    by_cases hpass : loosePass a = true
    · rw [if_pos hpass]
      obtain ⟨s, hsuf, hsall, hle, hlt⟩ := ih (counter + 1) ht
      by_cases hsl : s.length < t.length
      · refine ⟨s, hsuf.trans (List.suffix_cons a t), hsall, ?_, ?_⟩
        · exact le_trans (hlt hsl) (Nat.le_add_right _ _)
        · intro _
          exact hlt hsl
      · have hlen : s.length = t.length :=
          Nat.le_antisymm (List.IsSuffix.length_le hsuf) (Nat.le_of_not_lt hsl)
        have hst : s = t := List.IsSuffix.eq_of_length hsuf hlen
        subst hst
        refine ⟨a :: s, List.suffix_refl (a :: s), ?_, ?_, ?_⟩
        · intro inp hi
          rcases List.mem_cons.mp hi with hi | hi
          · rw [hi]; exact hpass
          · exact hsall inp hi
        · simpa [Nat.add_comm, Nat.add_assoc, Nat.add_left_comm] using hle
        · intro habs
          exact absurd habs (lt_irrefl _)
    · rw [if_neg hpass]
      obtain ⟨s, hsuf, hsall, hle, hlt⟩ := ih 0 ht
      refine ⟨s, hsuf.trans (List.suffix_cons a t), hsall, ?_, ?_⟩
      · exact le_trans (by simpa using hle) (Nat.le_add_right _ _)
      · intro _
        simpa using hle

lemma checkFirstOrderConvergence_cases (modelIsConstrained objectiveMultiplierPositive : Bool)
    (t : ConvergenceTests) :
    checkFirstOrderConvergence modelIsConstrained objectiveMultiplierPositive t =
        IterateStatus.feasibleKKTPoint ∨
    checkFirstOrderConvergence modelIsConstrained objectiveMultiplierPositive t =
        IterateStatus.infeasibleStationaryPoint ∨
    checkFirstOrderConvergence modelIsConstrained objectiveMultiplierPositive t =
        IterateStatus.notOptimal := by
  unfold checkFirstOrderConvergence
  split
  · exact Or.inl rfl
  · split
    · exact Or.inr (Or.inl rfl)
    · exact Or.inr (Or.inr rfl)

/-- C7: check_termination only ever returns NotOptimal, FeasibleKKT,
InfeasibleStationary or Unbounded; a call that reaches the loose-tolerance test and
fails it returns NotOptimal and resets the consecutive counter to zero; and over any
run starting from a zero counter in which every call reaches the loose-tolerance test,
a final status that is established only under the loose tolerance is returned solely
when the loose test has held on at least K consecutive calls ending at the returning
call. -/
theorem check_termination_statuses_and_loose_tolerance (K : Nat) :
    (∀ (counter : Nat) (inp : TerminationInput),
      (checkTermination K counter inp).1 = IterateStatus.notOptimal ∨
      (checkTermination K counter inp).1 = IterateStatus.feasibleKKTPoint ∨
      (checkTermination K counter inp).1 = IterateStatus.infeasibleStationaryPoint ∨
      (checkTermination K counter inp).1 = IterateStatus.unbounded) ∧
    (∀ (counter : Nat) (inp : TerminationInput), reachesLoose inp = true →
      loosePass inp = false →
      checkTermination K counter inp = (IterateStatus.notOptimal, 0)) ∧
    (∀ (past : List TerminationInput) (last : TerminationInput),
      (∀ inp ∈ past, reachesLoose inp = true) → reachesLoose last = true →
      (checkTermination K (runCounter K 0 past) last).1 ≠ IterateStatus.notOptimal →
      loosePass last = true ∧
      (checkTermination K (runCounter K 0 past) last).1 = looseStatus last ∧
      ∃ s, List.IsSuffix s (past ++ [last]) ∧ K ≤ s.length ∧
        ∀ inp ∈ s, loosePass inp = true) := by
  refine ⟨?_, ?_, ?_⟩
  · intro counter inp
    unfold checkTermination
    split
    · exact Or.inr (Or.inr (Or.inr rfl))
    · split
      · rcases checkFirstOrderConvergence_cases inp.modelIsConstrained
            inp.objectiveMultiplierPositive inp.tightTests with h | h | h
        · exact Or.inr (Or.inl h)
        · exact Or.inr (Or.inr (Or.inl h))
        · exact Or.inl h
      · split
        · split
          · rcases checkFirstOrderConvergence_cases inp.modelIsConstrained
                inp.objectiveMultiplierPositive inp.looseTests with h | h | h
            · exact Or.inr (Or.inl h)
            · exact Or.inr (Or.inr (Or.inl h))
            · exact Or.inl h
          · exact Or.inl rfl
        · exact Or.inl rfl
  · intro counter inp hreach hfail
    rw [checkTermination_of_reaches K counter inp hreach, if_neg (by simp [hfail])]
  · intro past last hpast hlast hres
    rw [checkTermination_of_reaches K _ last hlast] at hres ⊢
    by_cases hpass : loosePass last = true
    · rw [if_pos hpass] at hres ⊢
      by_cases hK : K ≤ runCounter K 0 past + 1
      · rw [if_pos hK] at hres ⊢
        refine ⟨hpass, rfl, ?_⟩
        obtain ⟨s, hsuf, hsall, hle, _⟩ := runCounter_suffix K past 0 hpast
        obtain ⟨t0, ht0⟩ := hsuf
        refine ⟨s ++ [last], ⟨t0, by rw [← List.append_assoc, ht0]⟩, ?_, ?_⟩
        · have : runCounter K 0 past ≤ s.length := by simpa using hle
          simp only [List.length_append, List.length_singleton]
          omega
        · intro inp hi
          rcases List.mem_append.mp hi with hi | hi
          · exact hsall inp hi
          · rw [List.mem_singleton.mp hi]
            exact hpass
      · rw [if_neg hK] at hres
        exact absurd rfl hres
    · rw [if_neg (by simp_all)] at hres
      exact absurd rfl hres

/-- Concrete input for the C7 witness: a call that reaches the loose test with a
not-optimal tight status and a loose status of FeasibleKKT. -/
def c7PassInput : TerminationInput :=
  { objectiveBelowUnboundedThreshold := false
    modelIsConstrained := false
    objectiveMultiplierPositive := true
    tightTests := ⟨false, false, false, false, false, false⟩
    looseTests := ⟨true, true, true, false, false, false⟩
    looseStrictlyLooser := true }

/-- Concrete run of the C7 theorem with K = 2: after one passing call, a second
passing call returns the loose status, and the loose test held on 2 consecutive
calls. -/
theorem check_termination_statuses_and_loose_tolerance_witness :
    loosePass c7PassInput = true ∧
    (checkTermination 2 (runCounter 2 0 [c7PassInput]) c7PassInput).1 =
      looseStatus c7PassInput ∧
    ∃ s, List.IsSuffix s ([c7PassInput] ++ [c7PassInput]) ∧ 2 ≤ s.length ∧
      ∀ inp ∈ s, loosePass inp = true :=
  (check_termination_statuses_and_loose_tolerance 2).2.2 [c7PassInput] c7PassInput
    (by decide) (by decide) (by decide)

end UnoSpec
